import Mathlib

/-!
Shallow embedding of the Black-Scholes option pricer repository.

`black_scholes.py` defines one function `black_scholes(S, K, T, r, sigma,
option_type)` returning a dictionary of the option price and the Greeks,
raising `ValueError` when `option_type` is neither `"Call"` nor `"Put"`.
`app.py` builds two 50×50 profitability matrices by sweeping the stock
price and the volatility over `np.linspace` axes and subtracting a
purchase price from each computed option price.

Floating-point arithmetic is modelled by real arithmetic; `scipy.stats.norm`
`cdf`/`pdf` are modelled by the standard normal distribution over `ℝ`.
The raised `ValueError` is modelled by an `Option` result (`none` = raise).
-/

/-- Standard normal density, the model of `scipy.stats.norm.pdf`. -/
noncomputable def norm_pdf (x : ℝ) : ℝ :=
  Real.exp (-(x ^ 2) / 2) / Real.sqrt (2 * Real.pi)

/-- Standard normal cumulative distribution function, the model of
`scipy.stats.norm.cdf`. -/
noncomputable def norm_cdf (x : ℝ) : ℝ :=
  ∫ t in Set.Iic x, norm_pdf t

lemma norm_pdf_eq :
    norm_pdf = fun x => Real.exp (-(1 / 2) * x ^ 2) * (Real.sqrt (2 * Real.pi))⁻¹ := by
  funext x
  unfold norm_pdf
  rw [div_eq_mul_inv]
  congr 1
  ring_nf

lemma norm_pdf_pos (x : ℝ) : 0 < norm_pdf x := by
  unfold norm_pdf
  have h2π : (0 : ℝ) < 2 * Real.pi := by positivity
  exact div_pos (Real.exp_pos _) (Real.sqrt_pos.mpr h2π)

lemma norm_pdf_even (x : ℝ) : norm_pdf (-x) = norm_pdf x := by
  unfold norm_pdf
  rw [neg_sq]

lemma integrable_norm_pdf : MeasureTheory.Integrable norm_pdf := by
  rw [norm_pdf_eq]
  exact (integrable_exp_neg_mul_sq (by norm_num : (0:ℝ) < 1 / 2)).mul_const _

lemma integral_norm_pdf : ∫ x, norm_pdf x = 1 := by
  rw [norm_pdf_eq]
  rw [MeasureTheory.integral_mul_right, integral_gaussian]
  have h : Real.pi / (1 / 2) = 2 * Real.pi := by ring
  rw [h]
  have h2π : (0 : ℝ) < 2 * Real.pi := by positivity
  exact mul_inv_cancel₀ (ne_of_gt (Real.sqrt_pos.mpr h2π))

/-- The normal CDF of `x` and of `-x` sum to one. -/
lemma norm_cdf_add_neg (x : ℝ) : norm_cdf x + norm_cdf (-x) = 1 := by
  have h1 : norm_cdf (-x) = ∫ t in Set.Ioi x, norm_pdf t := by
    unfold norm_cdf
    have h2 : ∫ t in Set.Iic (-x), norm_pdf t = ∫ t in Set.Iic (-x), norm_pdf (-t) := by
      simp only [norm_pdf_even]
    rw [h2, integral_comp_neg_Iic (-x) norm_pdf, neg_neg]
  rw [h1]
  unfold norm_cdf
  rw [intervalIntegral.integral_Iic_add_Ioi integrable_norm_pdf.integrableOn
    integrable_norm_pdf.integrableOn]
  exact integral_norm_pdf

/-- The normal CDF is strictly increasing. -/
lemma norm_cdf_strictMono : StrictMono norm_cdf := by
  intro a b hab
  have key : norm_cdf b - norm_cdf a = ∫ t in a..b, norm_pdf t :=
    intervalIntegral.integral_Iic_sub_Iic integrable_norm_pdf.integrableOn
      integrable_norm_pdf.integrableOn
  have pos : 0 < ∫ t in a..b, norm_pdf t :=
    intervalIntegral.intervalIntegral_pos_of_pos
      integrable_norm_pdf.intervalIntegrable norm_pdf_pos hab
  linarith

/-- The six outputs of `black_scholes`: the dictionary
`{"Price", "Delta", "Gamma", "Theta", "Vega", "Rho"}`. -/
structure Greeks where
  price : ℝ
  delta : ℝ
  gamma : ℝ
  theta : ℝ
  vega : ℝ
  rho : ℝ

/-- Source line 19 of `black_scholes.py`:
`d1 = (np.log(S / K) + (r + 0.5 * sigma**2) * T) / (sigma * np.sqrt(T))`. -/
noncomputable def d1 (S K T r sigma : ℝ) : ℝ :=
  (Real.log (S / K) + (r + 0.5 * sigma ^ 2) * T) / (sigma * Real.sqrt T)

/-- Source line 20 of `black_scholes.py`: `d2 = d1 - sigma * np.sqrt(T)`. -/
noncomputable def d2 (S K T r sigma : ℝ) : ℝ :=
  d1 S K T r sigma - sigma * Real.sqrt T

/-- The function `black_scholes` of `black_scholes.py`. Every numpy/scipy
operation is modelled over `ℝ`; the `ValueError` raised on an option type
other than `"Call"` or `"Put"` is modelled by `none`. The theta line keeps
the source's comparison against the lowercase string `"call"`:
`norm.cdf(d2 if option_type == "call" else -d2)`. -/
noncomputable def black_scholes (S K T r sigma : ℝ) (option_type : String) : Option Greeks :=
  let D1 := d1 S K T r sigma
  let D2 := d2 S K T r sigma
  let gamma := norm_pdf D1 / (S * sigma * Real.sqrt T)
  let vega := S * norm_pdf D1 * Real.sqrt T
  let theta := -S * norm_pdf D1 * sigma / (2 * Real.sqrt T)
      - r * K * Real.exp (-r * T) * norm_cdf (if option_type = "call" then D2 else -D2)
  if option_type = "Call" then
    some ⟨S * norm_cdf D1 - K * Real.exp (-r * T) * norm_cdf D2,
          norm_cdf D1,
          gamma, theta, vega,
          K * T * Real.exp (-r * T) * norm_cdf D2⟩
  else if option_type = "Put" then
    some ⟨K * Real.exp (-r * T) * norm_cdf (-D2) - S * norm_cdf (-D1),
          -norm_cdf (-D1),
          gamma, theta, vega,
          -(K * T * Real.exp (-r * T) * norm_cdf (-D2))⟩
  else none

/-- Extract the `"Price"` entry of a `black_scholes` result, `0` if the call
raised. -/
noncomputable def resultPrice : Option Greeks → ℝ
  | some g => g.price
  | none => 0

/-- Extract the `"Delta"` entry of a `black_scholes` result, `0` if the call
raised. -/
noncomputable def resultDelta : Option Greeks → ℝ
  | some g => g.delta
  | none => 0

/-- Extract the `"Gamma"` entry of a `black_scholes` result, `0` if the call
raised. -/
noncomputable def resultGamma : Option Greeks → ℝ
  | some g => g.gamma
  | none => 0

/-- Extract the `"Theta"` entry of a `black_scholes` result, `0` if the call
raised. -/
noncomputable def resultTheta : Option Greeks → ℝ
  | some g => g.theta
  | none => 0

/-- Extract the `"Vega"` entry of a `black_scholes` result, `0` if the call
raised. -/
noncomputable def resultVega : Option Greeks → ℝ
  | some g => g.vega
  | none => 0

/-- Extract the `"Rho"` entry of a `black_scholes` result, `0` if the call
raised. -/
noncomputable def resultRho : Option Greeks → ℝ
  | some g => g.rho
  | none => 0

/-- Model of `np.linspace(lo, hi, n)`: `n` evenly spaced samples over `[lo, hi]`,
endpoints included (point `i` is `lo + i*(hi-lo)/(n-1)`). -/
noncomputable def linspace (lo hi : ℝ) (n : ℕ) : List ℝ :=
  (List.range n).map fun i : ℕ => lo + (i : ℝ) * (hi - lo) / ((n : ℝ) - 1)

/-- Source line 140 of `app.py`:
`stock_prices = np.linspace(S_range[0], S_range[1], 50)`. -/
noncomputable def stock_prices (Smin Smax : ℝ) : List ℝ :=
  linspace Smin Smax 50

/-- Source line 141 of `app.py`:
`volatilities = np.linspace(sigma_range[0], sigma_range[1], 50)`. -/
noncomputable def volatilities (vmin vmax : ℝ) : List ℝ :=
  linspace vmin vmax 50

/-- The nested sweep of lines 148-153 of `app.py`, call side:
`call_profitability[i, j] = black_scholes(S_i, K, T, r, sigma_j, "Call")["Price"]
 - call_purchase_price`. -/
noncomputable def call_profitability (K T r : ℝ) (spots vols : List ℝ)
    (call_purchase_price : ℝ) : List (List ℝ) :=
  spots.map fun S => vols.map fun sigma =>
    resultPrice (black_scholes S K T r sigma "Call") - call_purchase_price

/-- The nested sweep of lines 148-153 of `app.py`, put side:
`put_profitability[i, j] = black_scholes(S_i, K, T, r, sigma_j, "Put")["Price"]
 - put_purchase_price`. -/
noncomputable def put_profitability (K T r : ℝ) (spots vols : List ℝ)
    (put_purchase_price : ℝ) : List (List ℝ) :=
  spots.map fun S => vols.map fun sigma =>
    resultPrice (black_scholes S K T r sigma "Put") - put_purchase_price

lemma linspace_length (lo hi : ℝ) (n : ℕ) : (linspace lo hi n).length = n := by
  simp [linspace]

lemma linspace_getD (lo hi : ℝ) (n i : ℕ) (hi' : i < n) :
    (linspace lo hi n).getD i 0 = lo + i * (hi - lo) / ((n : ℝ) - 1) := by
  unfold linspace
  rw [List.getD_eq_getElem _ _ (by simpa using hi'), List.getElem_map]
  simp

lemma linspace_pairwise (lo hi : ℝ) (n : ℕ) (h : lo < hi) (hn : 2 ≤ n) :
    (linspace lo hi n).Pairwise (· < ·) := by
  unfold linspace
  refine (List.pairwise_lt_range n).map _ ?_
  intro a b hab
  have hstep : (0 : ℝ) < (hi - lo) / ((n : ℝ) - 1) := by
    apply div_pos (by linarith)
    have : (2 : ℝ) ≤ (n : ℝ) := by exact_mod_cast hn
    linarith
  have hcast : (a : ℝ) < (b : ℝ) := by exact_mod_cast hab
  calc lo + a * (hi - lo) / ((n : ℝ) - 1)
      = lo + a * ((hi - lo) / ((n : ℝ) - 1)) := by ring
    _ < lo + b * ((hi - lo) / ((n : ℝ) - 1)) := by
        have := mul_lt_mul_of_pos_right hcast hstep
        linarith
    _ = lo + b * (hi - lo) / ((n : ℝ) - 1) := by ring

/-- C1: for every input with S > 0, K > 0, T > 0, sigma > 0 and variant Call,
`black_scholes` returns price = S·Φ(d1) − K·e^(−rT)·Φ(d2), delta = Φ(d1), and
rho = K·T·e^(−rT)·Φ(d2), where d1 = (ln(S/K) + (r + 0.5·σ²)·T)/(σ·√T) and
d2 = d1 − σ·√T. -/
theorem call_price_delta_rho_spec (S K T r sigma : ℝ)
    (hS : 0 < S) (hK : 0 < K) (hT : 0 < T) (hsig : 0 < sigma) :
    resultPrice (black_scholes S K T r sigma "Call")
      = S * norm_cdf (d1 S K T r sigma)
        - K * Real.exp (-r * T) * norm_cdf (d2 S K T r sigma) ∧
    resultDelta (black_scholes S K T r sigma "Call") = norm_cdf (d1 S K T r sigma) ∧
    resultRho (black_scholes S K T r sigma "Call")
      = K * T * Real.exp (-r * T) * norm_cdf (d2 S K T r sigma) := by
  refine ⟨?_, ?_, ?_⟩ <;> simp [black_scholes, resultPrice, resultDelta, resultRho]

/-- Witness for `call_price_delta_rho_spec` at S = 100, K = 100, T = 1,
r = 5/100, sigma = 2/10. -/
theorem call_price_delta_rho_spec_witness :
    (0 : ℝ) < 100 ∧ (0 : ℝ) < 100 ∧ (0 : ℝ) < 1 ∧ (0 : ℝ) < 2 / 10 ∧
    (resultPrice (black_scholes 100 100 1 (5 / 100) (2 / 10) "Call")
      = 100 * norm_cdf (d1 100 100 1 (5 / 100) (2 / 10))
        - 100 * Real.exp (-(5 / 100) * 1) * norm_cdf (d2 100 100 1 (5 / 100) (2 / 10)) ∧
     resultDelta (black_scholes 100 100 1 (5 / 100) (2 / 10) "Call")
      = norm_cdf (d1 100 100 1 (5 / 100) (2 / 10)) ∧
     resultRho (black_scholes 100 100 1 (5 / 100) (2 / 10) "Call")
      = 100 * 1 * Real.exp (-(5 / 100) * 1) * norm_cdf (d2 100 100 1 (5 / 100) (2 / 10))) :=
  ⟨by norm_num, by norm_num, by norm_num, by norm_num,
    call_price_delta_rho_spec 100 100 1 (5 / 100) (2 / 10)
      (by norm_num) (by norm_num) (by norm_num) (by norm_num)⟩

/-- C2: for every input with S > 0, K > 0, T > 0, sigma > 0 and variant Put,
`black_scholes` returns price = K·e^(−rT)·Φ(−d2) − S·Φ(−d1), delta = −Φ(−d1),
and rho = −K·T·e^(−rT)·Φ(−d2). -/
theorem put_price_delta_rho_spec (S K T r sigma : ℝ)
    (hS : 0 < S) (hK : 0 < K) (hT : 0 < T) (hsig : 0 < sigma) :
    resultPrice (black_scholes S K T r sigma "Put")
      = K * Real.exp (-r * T) * norm_cdf (-(d2 S K T r sigma))
        - S * norm_cdf (-(d1 S K T r sigma)) ∧
    resultDelta (black_scholes S K T r sigma "Put") = -norm_cdf (-(d1 S K T r sigma)) ∧
    resultRho (black_scholes S K T r sigma "Put")
      = -(K * T * Real.exp (-r * T) * norm_cdf (-(d2 S K T r sigma))) := by
  refine ⟨?_, ?_, ?_⟩ <;> simp [black_scholes, resultPrice, resultDelta, resultRho]

/-- Witness for `put_price_delta_rho_spec` at S = 100, K = 100, T = 1,
r = 5/100, sigma = 2/10. -/
theorem put_price_delta_rho_spec_witness :
    (0 : ℝ) < 100 ∧ (0 : ℝ) < 100 ∧ (0 : ℝ) < 1 ∧ (0 : ℝ) < 2 / 10 ∧
    (resultPrice (black_scholes 100 100 1 (5 / 100) (2 / 10) "Put")
      = 100 * Real.exp (-(5 / 100) * 1) * norm_cdf (-(d2 100 100 1 (5 / 100) (2 / 10)))
        - 100 * norm_cdf (-(d1 100 100 1 (5 / 100) (2 / 10))) ∧
     resultDelta (black_scholes 100 100 1 (5 / 100) (2 / 10) "Put")
      = -norm_cdf (-(d1 100 100 1 (5 / 100) (2 / 10))) ∧
     resultRho (black_scholes 100 100 1 (5 / 100) (2 / 10) "Put")
      = -(100 * 1 * Real.exp (-(5 / 100) * 1)
          * norm_cdf (-(d2 100 100 1 (5 / 100) (2 / 10))))) :=
  ⟨by norm_num, by norm_num, by norm_num, by norm_num,
    put_price_delta_rho_spec 100 100 1 (5 / 100) (2 / 10)
      (by norm_num) (by norm_num) (by norm_num) (by norm_num)⟩

/-- C4: for every input with S > 0, K > 0, T > 0, sigma > 0 and variant Put,
the returned theta equals −S·φ(d1)·σ/(2√T) − r·K·e^(−rT)·Φ(−d2), exactly as
the theta line of the source computes it (the `"call"` comparison fails for
`"Put"`, so the `-d2` branch is taken). -/
theorem put_theta_spec (S K T r sigma : ℝ)
    (hS : 0 < S) (hK : 0 < K) (hT : 0 < T) (hsig : 0 < sigma) :
    resultTheta (black_scholes S K T r sigma "Put")
      = -S * norm_pdf (d1 S K T r sigma) * sigma / (2 * Real.sqrt T)
        - r * K * Real.exp (-r * T) * norm_cdf (-(d2 S K T r sigma)) := by
  simp [black_scholes, resultTheta]

/-- Witness for `put_theta_spec` at S = 100, K = 100, T = 1, r = 5/100,
sigma = 2/10. -/
theorem put_theta_spec_witness :
    (0 : ℝ) < 100 ∧ (0 : ℝ) < 100 ∧ (0 : ℝ) < 1 ∧ (0 : ℝ) < 2 / 10 ∧
    resultTheta (black_scholes 100 100 1 (5 / 100) (2 / 10) "Put")
      = -100 * norm_pdf (d1 100 100 1 (5 / 100) (2 / 10)) * (2 / 10) / (2 * Real.sqrt 1)
        - (5 / 100) * 100 * Real.exp (-(5 / 100) * 1)
          * norm_cdf (-(d2 100 100 1 (5 / 100) (2 / 10))) :=
  ⟨by norm_num, by norm_num, by norm_num, by norm_num,
    put_theta_spec 100 100 1 (5 / 100) (2 / 10)
      (by norm_num) (by norm_num) (by norm_num) (by norm_num)⟩

/-- C6: for every input with S > 0, K > 0, T > 0, sigma > 0, the gamma and
vega returned for variant Call equal those returned for variant Put, with
gamma = φ(d1)/(S·σ·√T) and vega = S·φ(d1)·√T. -/
theorem gamma_vega_shared_spec (S K T r sigma : ℝ)
    (hS : 0 < S) (hK : 0 < K) (hT : 0 < T) (hsig : 0 < sigma) :
    resultGamma (black_scholes S K T r sigma "Call")
      = norm_pdf (d1 S K T r sigma) / (S * sigma * Real.sqrt T) ∧
    resultVega (black_scholes S K T r sigma "Call")
      = S * norm_pdf (d1 S K T r sigma) * Real.sqrt T ∧
    resultGamma (black_scholes S K T r sigma "Call")
      = resultGamma (black_scholes S K T r sigma "Put") ∧
    resultVega (black_scholes S K T r sigma "Call")
      = resultVega (black_scholes S K T r sigma "Put") := by
  refine ⟨?_, ?_, ?_, ?_⟩ <;> simp [black_scholes, resultGamma, resultVega]

/-- Witness for `gamma_vega_shared_spec` at S = 100, K = 100, T = 1,
r = 5/100, sigma = 2/10. -/
theorem gamma_vega_shared_spec_witness :
    (0 : ℝ) < 100 ∧ (0 : ℝ) < 100 ∧ (0 : ℝ) < 1 ∧ (0 : ℝ) < 2 / 10 ∧
    (resultGamma (black_scholes 100 100 1 (5 / 100) (2 / 10) "Call")
      = norm_pdf (d1 100 100 1 (5 / 100) (2 / 10)) / (100 * (2 / 10) * Real.sqrt 1) ∧
     resultVega (black_scholes 100 100 1 (5 / 100) (2 / 10) "Call")
      = 100 * norm_pdf (d1 100 100 1 (5 / 100) (2 / 10)) * Real.sqrt 1 ∧
     resultGamma (black_scholes 100 100 1 (5 / 100) (2 / 10) "Call")
      = resultGamma (black_scholes 100 100 1 (5 / 100) (2 / 10) "Put") ∧
     resultVega (black_scholes 100 100 1 (5 / 100) (2 / 10) "Call")
      = resultVega (black_scholes 100 100 1 (5 / 100) (2 / 10) "Put")) :=
  ⟨by norm_num, by norm_num, by norm_num, by norm_num,
    gamma_vega_shared_spec 100 100 1 (5 / 100) (2 / 10)
      (by norm_num) (by norm_num) (by norm_num) (by norm_num)⟩

/-- C7: `black_scholes` fails (raises `ValueError`, modelled by `none`) if
and only if the supplied variant is not one of `"Call"`, `"Put"`; for those
two variants it returns a result for all numeric inputs. -/
theorem variant_error_iff (S K T r sigma : ℝ) (v : String) :
    black_scholes S K T r sigma v = none ↔ v ≠ "Call" ∧ v ≠ "Put" := by
  by_cases h1 : v = "Call" <;> by_cases h2 : v = "Put" <;>
    simp [black_scholes, h1, h2]

/-- C10: the variant check of `black_scholes` is case-sensitive: the
lowercase spellings `"call"` and `"put"` advertised by its own docstring are
rejected with the invalid-option-type error (modelled by `none`) instead of
being priced. -/
theorem lowercase_variant_rejected :
    black_scholes 100 100 1 (5 / 100) (2 / 10) "call" = none ∧
    black_scholes 100 100 1 (5 / 100) (2 / 10) "put" = none := by
  constructor <;> simp [black_scholes]

/-- C5: for every input with S > 0, K > 0, T > 0, sigma > 0, the Call price
minus the Put price at the same parameters equals S − K·e^(−rT) (put-call
parity), within tolerance 1e-6 (the identity is exact over `ℝ`). -/
theorem put_call_parity (S K T r sigma : ℝ)
    (hS : 0 < S) (hK : 0 < K) (hT : 0 < T) (hsig : 0 < sigma) :
    |resultPrice (black_scholes S K T r sigma "Call")
      - resultPrice (black_scholes S K T r sigma "Put")
      - (S - K * Real.exp (-r * T))| ≤ 1 / 1000000 := by
  have hc : resultPrice (black_scholes S K T r sigma "Call")
      = S * norm_cdf (d1 S K T r sigma)
        - K * Real.exp (-r * T) * norm_cdf (d2 S K T r sigma) := by
    simp [black_scholes, resultPrice]
  have hp : resultPrice (black_scholes S K T r sigma "Put")
      = K * Real.exp (-r * T) * norm_cdf (-(d2 S K T r sigma))
        - S * norm_cdf (-(d1 S K T r sigma)) := by
    simp [black_scholes, resultPrice]
  have e1 : norm_cdf (-(d1 S K T r sigma)) = 1 - norm_cdf (d1 S K T r sigma) := by
    have := norm_cdf_add_neg (d1 S K T r sigma)
    linarith
  have e2 : norm_cdf (-(d2 S K T r sigma)) = 1 - norm_cdf (d2 S K T r sigma) := by
    have := norm_cdf_add_neg (d2 S K T r sigma)
    linarith
  have hval : resultPrice (black_scholes S K T r sigma "Call")
      - resultPrice (black_scholes S K T r sigma "Put")
      - (S - K * Real.exp (-r * T)) = 0 := by
    rw [hc, hp, e1, e2]
    ring
  rw [hval]
  norm_num

/-- Witness for `put_call_parity` at S = 100, K = 100, T = 1, r = 5/100,
sigma = 2/10. -/
theorem put_call_parity_witness :
    (0 : ℝ) < 100 ∧ (0 : ℝ) < 100 ∧ (0 : ℝ) < 1 ∧ (0 : ℝ) < 2 / 10 ∧
    |resultPrice (black_scholes 100 100 1 (5 / 100) (2 / 10) "Call")
      - resultPrice (black_scholes 100 100 1 (5 / 100) (2 / 10) "Put")
      - (100 - 100 * Real.exp (-(5 / 100) * 1))| ≤ 1 / 1000000 :=
  ⟨by norm_num, by norm_num, by norm_num, by norm_num,
    put_call_parity 100 100 1 (5 / 100) (2 / 10)
      (by norm_num) (by norm_num) (by norm_num) (by norm_num)⟩

/-- C3 fails on the code: at S = K = T = r = sigma = 1 and variant Call, the
returned theta is NOT −S·φ(d1)·σ/(2√T) − r·K·e^(−rT)·Φ(d2). The source's
theta line compares `option_type` against the lowercase `"call"`, which never
matches the accepted spelling `"Call"`, so theta is always computed with
Φ(−d2); here d2 = 1/2 and Φ(−1/2) < Φ(1/2). -/
theorem call_theta_deviates_from_spec :
    resultTheta (black_scholes 1 1 1 1 1 "Call")
      ≠ -1 * norm_pdf (d1 1 1 1 1 1) * 1 / (2 * Real.sqrt 1)
        - 1 * 1 * Real.exp (-1 * 1) * norm_cdf (d2 1 1 1 1 1) := by
  have hd1 : d1 1 1 1 1 1 = 3 / 2 := by
    unfold d1
    rw [show (1 : ℝ) / 1 = 1 by norm_num, Real.log_one, Real.sqrt_one]
    norm_num
  have hd2 : d2 1 1 1 1 1 = 1 / 2 := by
    unfold d2
    rw [hd1, Real.sqrt_one]
    norm_num
  have hlt : norm_cdf (-(1 / 2) : ℝ) < norm_cdf (1 / 2 : ℝ) :=
    norm_cdf_strictMono (by norm_num)
  have hexp : (0 : ℝ) < Real.exp (-1 * 1) := Real.exp_pos _
  intro h
  have hcode : resultTheta (black_scholes 1 1 1 1 1 "Call")
      = -1 * norm_pdf (d1 1 1 1 1 1) * 1 / (2 * Real.sqrt 1)
        - 1 * 1 * Real.exp (-1 * 1) * norm_cdf (-(d2 1 1 1 1 1)) := by
    simp [black_scholes, resultTheta]
  rw [hcode, hd2] at h
  have key : 0 < Real.exp (-1 * 1) * (norm_cdf (1 / 2 : ℝ) - norm_cdf (-(1 / 2) : ℝ)) :=
    mul_pos hexp (by linarith)
  nlinarith [key, h]

lemma nested_map_getD (spots vols : List ℝ) (f : ℝ → ℝ → ℝ) (i j : ℕ)
    (hi : i < spots.length) (hj : j < vols.length) :
    ((spots.map fun S => vols.map fun v => f S v).getD i []).getD j 0
      = f (spots.getD i 0) (vols.getD j 0) := by
  have h1 : (spots.map fun S => vols.map fun v => f S v).getD i []
      = vols.map fun v => f (spots.getD i 0) v := by
    rw [List.getD_eq_getElem _ _ (by simpa using hi), List.getElem_map,
      List.getD_eq_getElem _ _ hi]
  rw [h1, List.getD_eq_getElem _ _ (by simpa using hj), List.getElem_map,
    List.getD_eq_getElem _ _ hj]

lemma linspace_getD_zero (lo hi : ℝ) (n : ℕ) (hn : 0 < n) :
    (linspace lo hi n).getD 0 0 = lo := by
  rw [linspace_getD _ _ _ _ hn]
  norm_num

lemma linspace50_getD_last (lo hi : ℝ) :
    (linspace lo hi 50).getD 49 0 = hi := by
  rw [linspace_getD _ _ _ _ (by norm_num)]
  norm_num

lemma linspace50_step (lo hi : ℝ) (i : ℕ) (h : i + 1 < 50) :
    (linspace lo hi 50).getD (i + 1) 0 - (linspace lo hi 50).getD i 0
      = (hi - lo) / 49 := by
  rw [linspace_getD _ _ _ _ h, linspace_getD _ _ _ _ (by omega)]
  push_cast
  ring

/-- C8: every cell `[i][j]` of each profitability matrix equals the pricing
engine's price at `(spots[i], vols[j])` — strike, time and rate held fixed —
minus the purchase price of the corresponding variant. -/
theorem grid_cell_spec (K T r cp pp : ℝ) (spots vols : List ℝ) (i j : ℕ)
    (hi : i < spots.length) (hj : j < vols.length) :
    ((call_profitability K T r spots vols cp).getD i []).getD j 0
      = resultPrice (black_scholes (spots.getD i 0) K T r (vols.getD j 0) "Call") - cp ∧
    ((put_profitability K T r spots vols pp).getD i []).getD j 0
      = resultPrice (black_scholes (spots.getD i 0) K T r (vols.getD j 0) "Put") - pp := by
  constructor
  · exact nested_map_getD spots vols
      (fun S v => resultPrice (black_scholes S K T r v "Call") - cp) i j hi hj
  · exact nested_map_getD spots vols
      (fun S v => resultPrice (black_scholes S K T r v "Put") - pp) i j hi hj

/-- Witness for `grid_cell_spec` with spots `[100, 105]`, vols
`[2/10, 3/10]`, cell `(1, 0)`. -/
theorem grid_cell_spec_witness :
    1 < ([100, 105] : List ℝ).length ∧ 0 < ([2 / 10, 3 / 10] : List ℝ).length ∧
    (((call_profitability 100 1 (5 / 100) [100, 105] [2 / 10, 3 / 10] 10).getD 1 []).getD 0 0
      = resultPrice (black_scholes (([100, 105] : List ℝ).getD 1 0) 100 1 (5 / 100)
          (([2 / 10, 3 / 10] : List ℝ).getD 0 0) "Call") - 10 ∧
     ((put_profitability 100 1 (5 / 100) [100, 105] [2 / 10, 3 / 10] 6).getD 1 []).getD 0 0
      = resultPrice (black_scholes (([100, 105] : List ℝ).getD 1 0) 100 1 (5 / 100)
          (([2 / 10, 3 / 10] : List ℝ).getD 0 0) "Put") - 6) :=
  ⟨by simp, by simp,
    grid_cell_spec 100 1 (5 / 100) 10 6 [100, 105] [2 / 10, 3 / 10] 1 0
      (by simp) (by simp)⟩

/-- C9: for `spotRange.min < spotRange.max`, the spot axis has exactly 50
(the hard-coded grid resolution) evenly spaced entries, strictly ascending,
first entry `spotRange.min`, last entry `spotRange.max`; the volatility axis
is built the same way over the volatility range. -/
theorem axes_spec (Smin Smax vmin vmax : ℝ) (hS : Smin < Smax) (hv : vmin < vmax) :
    (stock_prices Smin Smax).length = 50 ∧
    (stock_prices Smin Smax).Pairwise (· < ·) ∧
    (stock_prices Smin Smax).getD 0 0 = Smin ∧
    (stock_prices Smin Smax).getD 49 0 = Smax ∧
    (∀ i : ℕ, i + 1 < 50 →
      (stock_prices Smin Smax).getD (i + 1) 0 - (stock_prices Smin Smax).getD i 0
        = (Smax - Smin) / 49) ∧
    (volatilities vmin vmax).length = 50 ∧
    (volatilities vmin vmax).Pairwise (· < ·) ∧
    (volatilities vmin vmax).getD 0 0 = vmin ∧
    (volatilities vmin vmax).getD 49 0 = vmax ∧
    ∀ i : ℕ, i + 1 < 50 →
      (volatilities vmin vmax).getD (i + 1) 0 - (volatilities vmin vmax).getD i 0
        = (vmax - vmin) / 49 := by
  unfold stock_prices volatilities
  exact ⟨linspace_length _ _ _, linspace_pairwise _ _ _ hS (by norm_num),
    linspace_getD_zero _ _ _ (by norm_num), linspace50_getD_last _ _,
    fun i h => linspace50_step _ _ i h,
    linspace_length _ _ _, linspace_pairwise _ _ _ hv (by norm_num),
    linspace_getD_zero _ _ _ (by norm_num), linspace50_getD_last _ _,
    fun i h => linspace50_step _ _ i h⟩

/-- Witness for `axes_spec` over spot range (90, 110) and volatility range
(15/100, 25/100). -/
theorem axes_spec_witness :
    (90 : ℝ) < 110 ∧ (15 / 100 : ℝ) < 25 / 100 ∧
    ((stock_prices 90 110).length = 50 ∧
     (stock_prices 90 110).Pairwise (· < ·) ∧
     (stock_prices 90 110).getD 0 0 = 90 ∧
     (stock_prices 90 110).getD 49 0 = 110 ∧
     (∀ i : ℕ, i + 1 < 50 →
       (stock_prices 90 110).getD (i + 1) 0 - (stock_prices 90 110).getD i 0
         = (110 - 90) / 49) ∧
     (volatilities (15 / 100) (25 / 100)).length = 50 ∧
     (volatilities (15 / 100) (25 / 100)).Pairwise (· < ·) ∧
     (volatilities (15 / 100) (25 / 100)).getD 0 0 = 15 / 100 ∧
     (volatilities (15 / 100) (25 / 100)).getD 49 0 = 25 / 100 ∧
     ∀ i : ℕ, i + 1 < 50 →
       (volatilities (15 / 100) (25 / 100)).getD (i + 1) 0
         - (volatilities (15 / 100) (25 / 100)).getD i 0
         = (25 / 100 - 15 / 100) / 49) :=
  ⟨by norm_num, by norm_num,
    axes_spec 90 110 (15 / 100) (25 / 100) (by norm_num) (by norm_num)⟩
